import Mathlib

/-!
Verification model of the copaw-local session cache and streamed-reply
synchronization engine.

Embedded source files:
* `src/unnamed/part_001` (the api client): `extractDeltaText`,
  `parseStreamLine`, `apiClient.sendAgentMessage` (stream buffer loop);
* `src/unnamed/part_005` (`ChatPage`): the `sendMessage` effect sequence
  (optimistic append, polling timer, stream callback, finally block);
* `src/copaw/console_decompiled/modules/hooks/session-store.js`
  (`SessionStore`): list cache, per-session cache, mutations.

Modelling conventions:
* JS strings of the stream layer are `List Char` (the bytes have already
  been UTF-8 decoded by `TextDecoder`; chunk boundaries are at character
  granularity, which is what `decode(value, stream: true)` guarantees).
* `Date.now()` is an explicit `now : Nat` argument.
* `localStorage` under the single key `agent-scope-runtime-webui-sessions`
  is `Option (List Session)`; `JSON.stringify`/`JSON.parse` round-trip on
  that key is the identity, so the stored JSON text is elided.
* network calls are oracles: an `Except Unit α` argument stands for the
  settled outcome of the single request a function awaits.
* `async`/`await` interleaving for the single-flight claim is a separate
  explicit event machine (`ListMachine` section below).
-/

namespace Copaw

/-! ### JSON values (argument of JSON.parse / extractDeltaText) -/

inductive Json where
  | null : Json
  | bool (b : Bool) : Json
  | num (lexeme : String) : Json
  | str (s : String) : Json
  | arr (elems : List Json) : Json
  | obj (fields : List (String × Json)) : Json

/-- Property access `record[key]`: a field of an object, `undefined`
(`none`) on everything else (JS arrays have no such string-keyed fields
for the keys this code reads). -/
def Json.getField (j : Json) (key : String) : Option Json :=
  match j with
  | .obj fields => (fields.find? (fun kv => kv.1 == key)).map (fun kv => kv.2)
  | _ => none

/-- Truthy value of `typeof x === "object"`: plain objects and arrays.
JS `null` also has typeof "object" but is falsy, and every guard in the
source pairs the typeof test with a truthiness test, so `Json.null` is
excluded here. -/
def Json.isObjLike : Json → Bool
  | .obj _ => true
  | .arr _ => true
  | _ => false

/-- Helper for the pattern `typeof x === "string" ? x : undefined`. -/
def Json.asStr : Option Json → Option String
  | some (.str s) => some s
  | _ => none

/-- Branch `if (record.delta && typeof record.delta === "object")` of
`extractDeltaText` (src/unnamed/part_001 lines 152-160): the string
`delta.text`, else the string `delta.content`, else nothing. -/
def deltaObjTextContent (payload : Json) : Option String :=
  match payload.getField "delta" with
  | some d =>
    if d.isObjLike then
      match Json.asStr (d.getField "text") with
      | some t => some t
      | none => Json.asStr (d.getField "content")
    else none
  | none => none

/-- Translation of `extractDeltaText` (src/unnamed/part_001 lines 143-185).
Each branch mirrors one `if` of the source, in source order. -/
def extractDeltaText (payload : Json) : String :=
  -- if (!payload || typeof payload !== "object") return "";
  if !payload.isObjLike then ""
  else
    -- if (typeof record.delta === "string") return record.delta;
    match Json.asStr (payload.getField "delta") with
    | some s => s
    | none =>
      -- if (record.delta && typeof record.delta === "object") { text / content }
      match deltaObjTextContent payload with
      | some s => s
      | none =>
        -- if (typeof record.text_delta === "string") return record.text_delta;
        match Json.asStr (payload.getField "text_delta") with
        | some s => s
        | none =>
          -- if (typeof record.token === "string") return record.token;
          match Json.asStr (payload.getField "token") with
          | some s => s
          | none =>
            -- if (Array.isArray(record.choices)) { concatenate delta.content }
            match payload.getField "choices" with
            | some (.arr choices) =>
              choices.foldl
                (fun acc choice =>
                  match choice.getField "delta" with
                  | some d =>
                    match Json.asStr (d.getField "content") with
                    | some c => acc ++ c
                    | none => acc
                  | none => acc)
                ""
            | _ => ""

/-! ### Spec-side formulation of the extraction precedence.

Modelled from the spec's words (§4.2 step 5): an ordered list of
extractor rules, the first matching rule wins, the extracted string is
empty when no rule matches.  This is the comparison point for claim C3;
`extractDeltaText` above is the code's version. -/

/-- Rule 1 of the spec: top-level `delta` when it is a string. -/
def ruleTopDelta (j : Json) : Option String :=
  Json.asStr (j.getField "delta")

/-- Rule 2 of the spec: `delta.text`. -/
def ruleDeltaTextField (j : Json) : Option String :=
  (j.getField "delta").bind (fun d => Json.asStr (d.getField "text"))

/-- Rule 3 of the spec: `delta.content`. -/
def ruleDeltaContentField (j : Json) : Option String :=
  (j.getField "delta").bind (fun d => Json.asStr (d.getField "content"))

/-- Rule 4 of the spec: top-level `text_delta`. -/
def ruleTextDelta (j : Json) : Option String :=
  Json.asStr (j.getField "text_delta")

/-- Rule 5 of the spec: top-level `token`. -/
def ruleToken (j : Json) : Option String :=
  Json.asStr (j.getField "token")

/-- Rule 6 of the spec: concatenation of the string `content` of every
element of `choices[].delta`, applicable whenever `choices` is an array. -/
def ruleChoices (j : Json) : Option String :=
  match j.getField "choices" with
  | some (.arr choices) =>
    some (choices.foldl
      (fun acc choice =>
        match (choice.getField "delta").bind
            (fun d => Json.asStr (d.getField "content")) with
        | some c => acc ++ c
        | none => acc)
      "")
  | _ => none

/-- Ordered rule list of the spec. -/
def deltaRules : List (Json → Option String) :=
  [ruleTopDelta, ruleDeltaTextField, ruleDeltaContentField,
   ruleTextDelta, ruleToken, ruleChoices]

/-- First matching rule wins. -/
def firstRule : List (Json → Option String) → Json → Option String
  | [], _ => none
  | r :: rs, j =>
    match r j with
    | some s => some s
    | none => firstRule rs j

/-- Spec-side extraction: result of the first matching rule, empty when
none matches. -/
def extractDeltaTextSpec (j : Json) : String :=
  (firstRule deltaRules j).getD ""

/-- Proof intermediate: the six rules laid out as one fixed cascade;
both `extractDeltaText` and `extractDeltaTextSpec` are proved equal to
this form. -/
def deltaRuleCascade (j : Json) : String :=
  match ruleTopDelta j with
  | some s => s
  | none =>
    match ruleDeltaTextField j with
    | some s => s
    | none =>
      match ruleDeltaContentField j with
      | some s => s
      | none =>
        match ruleTextDelta j with
        | some s => s
        | none =>
          match ruleToken j with
          | some s => s
          | none =>
            match ruleChoices j with
            | some s => s
            | none => ""

/-! ### JSON.parse (platform function used by parseStreamLine).

A recursive-descent reader of the JSON grammar, fuel-bounded by input
length.  Number tokens are kept as lexemes (`Json.num`) because the code
under verification never reads numeric values, only their types. -/

/-- Whitespace skipped by the JSON grammar. -/
def skipWs : List Char → List Char
  | c :: rest =>
    if c = ' ' || c = '\t' || c = '\n' || c = '\r' then skipWs rest
    else c :: rest
  | [] => []

/-- Numeric value of one hex digit. -/
def hexVal (c : Char) : Option Nat :=
  if '0' ≤ c && c ≤ '9' then some (c.toNat - 48)
  else if 'a' ≤ c && c ≤ 'f' then some (c.toNat - 87)
  else if 'A' ≤ c && c ≤ 'F' then some (c.toNat - 55)
  else none

/-- Body of a JSON string literal, after the opening quote. -/
def parseStrBody (acc : String) : List Char → Option (String × List Char)
  | [] => none
  | '"' :: rest => some (acc, rest)
  | '\\' :: esc =>
    match esc with
    | '"' :: rest => parseStrBody (acc.push '"') rest
    | '\\' :: rest => parseStrBody (acc.push '\\') rest
    | '/' :: rest => parseStrBody (acc.push '/') rest
    | 'b' :: rest => parseStrBody (acc.push '\x08') rest
    | 'f' :: rest => parseStrBody (acc.push '\x0c') rest
    | 'n' :: rest => parseStrBody (acc.push '\n') rest
    | 'r' :: rest => parseStrBody (acc.push '\r') rest
    | 't' :: rest => parseStrBody (acc.push '\t') rest
    | 'u' :: h1 :: h2 :: h3 :: h4 :: rest =>
      match hexVal h1, hexVal h2, hexVal h3, hexVal h4 with
      | some a, some b, some c, some d =>
        parseStrBody (acc.push (Char.ofNat (((a * 16 + b) * 16 + c) * 16 + d))) rest
      | _, _, _, _ => none
    | _ => none
  | c :: rest => parseStrBody (acc.push c) rest

/-- Character that may appear in a number token. -/
def isNumChar (c : Char) : Bool :=
  c.isDigit || c = '-' || c = '+' || c = '.' || c = 'e' || c = 'E'

/-- Lex a number token (lexeme kept verbatim). -/
def parseNum (cs : List Char) : Option (Json × List Char) :=
  let lexeme := cs.takeWhile isNumChar
  if lexeme.any Char.isDigit then
    some (.num (String.mk lexeme), cs.drop lexeme.length)
  else none

mutual

/-- JSON value. -/
def parseVal : Nat → List Char → Option (Json × List Char)
  | 0, _ => none
  | fuel + 1, cs =>
    match skipWs cs with
    | 'n' :: 'u' :: 'l' :: 'l' :: rest => some (.null, rest)
    | 't' :: 'r' :: 'u' :: 'e' :: rest => some (.bool true, rest)
    | 'f' :: 'a' :: 'l' :: 's' :: 'e' :: rest => some (.bool false, rest)
    | '"' :: rest => (parseStrBody "" rest).map (fun p => (.str p.1, p.2))
    | '\x7b' :: rest => (parseObjTail fuel rest true).map (fun p => (.obj p.1, p.2))
    | '[' :: rest => (parseArrTail fuel rest true).map (fun p => (.arr p.1, p.2))
    | c :: rest => if c = '-' || c.isDigit then parseNum (c :: rest) else none
    | [] => none

/-- Members of an object, after the opening brace (or after a comma when
`first` is false). -/
def parseObjTail : Nat → List Char → Bool → Option (List (String × Json) × List Char)
  | 0, _, _ => none
  | fuel + 1, cs, first =>
    match skipWs cs with
    | '\x7d' :: rest => if first then some ([], rest) else none
    | '"' :: rest =>
      match parseStrBody "" rest with
      | some (key, afterKey) =>
        match skipWs afterKey with
        | ':' :: afterColon =>
          match parseVal fuel afterColon with
          | some (v, afterVal) =>
            match skipWs afterVal with
            | ',' :: afterComma =>
              (parseObjTail fuel afterComma false).map
                (fun p => ((key, v) :: p.1, p.2))
            | '\x7d' :: rest2 => some ([(key, v)], rest2)
            | _ => none
          | none => none
        | _ => none
      | none => none
    | _ => none

/-- Items of an array, after the opening bracket (or after a comma when
`first` is false). -/
def parseArrTail : Nat → List Char → Bool → Option (List Json × List Char)
  | 0, _, _ => none
  | fuel + 1, cs, first =>
    match skipWs cs with
    | ']' :: rest => if first then some ([], rest) else none
    | cs2 =>
      match parseVal fuel cs2 with
      | some (v, afterVal) =>
        match skipWs afterVal with
        | ',' :: afterComma =>
          (parseArrTail fuel afterComma false).map (fun p => (v :: p.1, p.2))
        | ']' :: rest2 => some ([v], rest2)
        | _ => none
      | none => none

end

/-- JSON.parse: whole-input parse, `none` models the thrown SyntaxError. -/
def jsonParse (cs : List Char) : Option Json :=
  match parseVal (cs.length + 2) cs with
  | some (j, rest) => if skipWs rest = [] then some j else none
  | none => none

/-! ### parseStreamLine and the sendAgentMessage stream loop -/

/-- Whitespace removed by JS `String.prototype.trim`. -/
def isJsSpace (c : Char) : Bool :=
  c = ' ' || c = '\t' || c = '\n' || c = '\r' || c = '\x0b' || c = '\x0c'

/-- JS `line.trim()`. -/
def jsTrim (cs : List Char) : List Char :=
  ((cs.dropWhile isJsSpace).reverse.dropWhile isJsSpace).reverse

/-- Translation of `parseStreamLine` (src/unnamed/part_001 lines 187-216),
returning the argument passed to `onTextChunk`, or `none` when the
callback is not invoked for this line. -/
def parseStreamLine (line : List Char) : Option String :=
  let trimmed := jsTrim line
  -- if (!trimmed || trimmed.startsWith("event:")) return;
  if trimmed = [] then none
  else if "event:".toList.isPrefixOf trimmed then none
  else
    -- strip a leading "data:" prefix; trimmed.slice(5).trim()
    let rawPayload :=
      if "data:".toList.isPrefixOf trimmed then jsTrim (trimmed.drop 5)
      else trimmed
    -- if (!rawPayload || rawPayload === "[DONE]") return;
    if rawPayload = [] then none
    else if rawPayload = "[DONE]".toList then none
    else
      match jsonParse rawPayload with
      | some parsed =>
        let delta := extractDeltaText parsed
        -- if (delta) onTextChunk(delta);
        if delta = "" then none else some delta
      | none => none   -- catch: ignore non-JSON chunks

/-- Model of `buffer.split(/\r?\n/)` followed by `buffer = lines.pop()`:
the list of complete (separator-terminated) segments and the trailing
segment.  A separator is a `\n`, together with the `\r` immediately
before it when there is one (the regex consumes at most one `\r`);
`acc` is the segment accumulated so far. -/
def splitGo (acc : List Char) : List Char → List (List Char) × List Char
  | [] => ([], acc)
  | '\r' :: '\n' :: rest =>
    let p := splitGo [] rest
    (acc :: p.1, p.2)
  | '\n' :: rest =>
    let p := splitGo [] rest
    (acc :: p.1, p.2)
  | c :: rest => splitGo (acc ++ [c]) rest

/-- Proof device: one character of the same split, phrased as a left
fold — on `\n` emit the current segment (dropping one `\r` immediately
before the `\n`), otherwise extend the segment. -/
def jsSplitStep (st : List (List Char) × List Char) (ch : Char) :
    List (List Char) × List Char :=
  if ch = '\n' then
    if st.2.getLast? = some '\r' then (st.1 ++ [st.2.dropLast], [])
    else (st.1 ++ [st.2], [])
  else (st.1, st.2 ++ [ch])

/-- Complete lines and new buffer produced from one buffer state. -/
def jsSplitRN (s : List Char) : List (List Char) × List Char :=
  splitGo [] s

/-- One iteration of the read loop of `apiClient.sendAgentMessage`
(src/unnamed/part_001 lines 400-411): append the chunk to the buffer,
split, keep the last segment, feed every complete line to
`parseStreamLine`, collecting the `onTextChunk` invocations in order. -/
def streamStep (st : List String × List Char) (chunk : List Char) :
    List String × List Char :=
  let p := jsSplitRN (st.2 ++ chunk)
  (st.1 ++ p.1.filterMap parseStreamLine, p.2)

/-- Sequence of `onTextChunk` invocation arguments produced by
`apiClient.sendAgentMessage` for a given sequence of decoded chunks,
including the final `if (buffer) parseStreamLine(buffer)` step. -/
def sendAgentMessageEmissions (chunks : List (List Char)) : List String :=
  let st := chunks.foldl streamStep ([], [])
  st.1 ++ (if st.2 = [] then [] else (parseStreamLine st.2).toList)

/-! ### ChatPage.sendMessage effect trace (src/unnamed/part_005).

The trace models one `sendMessage` run from the point where the send
request is issued: the optimistic append, the polling-timer start, the
stream-callback invocations (`chunks` lists the successive `chunk`
arguments the stream layer delivers), the catch branch, and the finally
block.  Ticks of the polling timer itself are separate event-loop tasks
and are not events of this trace. -/

inductive ChatEvent where
  | appendOptimistic
  | startTimer
  | callbackChunk (chunk : String)
  | clearTimer
  | historySet (text : String)
  | setRecoverableError
  | setSendingFalse
  | loadChats
  | loadHistory
deriving DecidableEq, Repr

/-- Events produced by the stream callback (part_005 lines 174-199),
threading `hasStreamChunk` and `streamedText`. -/
def chunkEventsGo (hasStreamChunk : Bool) (streamedText : String) :
    List String → List ChatEvent
  | [] => []
  | c :: cs =>
    ChatEvent.callbackChunk c ::
      (if c = "" then chunkEventsGo hasStreamChunk streamedText cs
       else
         let streamedText2 := streamedText ++ c
         (if hasStreamChunk then [] else [ChatEvent.clearTimer]) ++
           ChatEvent.historySet streamedText2 ::
             chunkEventsGo true streamedText2 cs)

/-- Stream-callback events of one send, from the initial state. -/
def chunkEvents (chunks : List String) : List ChatEvent :=
  chunkEventsGo false "" chunks

/-- Catch-branch events: a recoverable error is surfaced on failure. -/
def errEvents (ok : Bool) : List ChatEvent :=
  if ok then [] else [ChatEvent.setRecoverableError]

/-- Finally-block events (part_005 lines 203-208), in source order. -/
def finallyEvents : List ChatEvent :=
  [ChatEvent.clearTimer, ChatEvent.setSendingFalse,
   ChatEvent.loadChats, ChatEvent.loadHistory]

/-- Full effect trace of one `sendMessage` run that reaches the send
request: `chunks` are the callback arguments delivered before the
request settled, `ok` tells whether the send promise resolved. -/
def sendMessageTrace (chunks : List String) (ok : Bool) : List ChatEvent :=
  [ChatEvent.appendOptimistic, ChatEvent.startTimer] ++
    chunkEvents chunks ++ errEvents ok ++ finallyEvents

/-- Successive values of `streamedText` right after each accepted
(non-empty) callback chunk — the cumulative assembled text kept by the
ChatPage callback. -/
def assembledTextsGo (acc : String) : List String → List String
  | [] => []
  | c :: cs =>
    if c = "" then assembledTextsGo acc cs
    else (acc ++ c) :: assembledTextsGo (acc ++ c) cs

/-- Cumulative assembled texts for a delivered chunk sequence. -/
def assembledTexts (chunks : List String) : List String :=
  assembledTextsGo "" chunks

/-- Polling-timer state transition of one event: `setInterval` starts
the timer, `clearInterval` stops it (idempotently). -/
def timerStep (b : Bool) (e : ChatEvent) : Bool :=
  match e with
  | ChatEvent.startTimer => true
  | ChatEvent.clearTimer => false
  | _ => b

/-- Timer state after a list of events (initially not running). -/
def runningAfter (l : List ChatEvent) : Bool :=
  l.foldl timerStep false

/-- Number of running-to-stopped transitions of the timer along a trace,
starting from timer state `b`. -/
def stopsGo (b : Bool) : List ChatEvent → Nat
  | [] => 0
  | e :: rest =>
    let b2 := timerStep b e
    (if b && !b2 then 1 else 0) + stopsGo b2 rest

/-- Number of times the timer actually goes from running to stopped. -/
def stopsCount (l : List ChatEvent) : Nat :=
  stopsGo false l

/-! ### SessionStore (src/copaw/console_decompiled/modules/hooks/session-store.js)

State of the singleton store.  `storage` is the content of the single
localStorage key (`none` = key absent, `JSON.parse("[]") = []`); the
three `window*` fields are the ambient globals the store mutates. -/

structure Session where
  id : String
  name : String
  sessionId : String
  userId : String
  channel : String
  messages : List String
  meta : List (String × String)
deriving DecidableEq, Repr

structure StoreState where
  sessionList : List Session
  storage : Option (List Session)
  lastFetchTime : Nat
  sessionCache : List (String × Session × Nat)
  windowSessionId : String
  windowUserId : String
  windowChannel : String
deriving DecidableEq, Repr

/-- this.cacheTimeout = 5e3. -/
def cacheTimeout : Nat := 5000

/-- this.sessionCacheTimeout = 5e3. -/
def sessionCacheTimeout : Nat := 5000

/-- persistSessionList(): write the in-memory list through to storage. -/
def persistSessionList (st : StoreState) : StoreState :=
  { st with storage := some st.sessionList }

/-- Session value built by createEmptySession. -/
def emptySessionValue (sid : String) : Session :=
  { id := sid, name := "New Chat", sessionId := sid, userId := "default",
    channel := "console", messages := [], meta := [] }

/-- createEmptySession: sets the window globals and returns a fresh
temporary session. -/
def createEmptySession (sid : String) (st : StoreState) : Session × StoreState :=
  (emptySessionValue sid,
   { st with windowSessionId := sid, windowUserId := "default",
             windowChannel := "console" })

/-- updateWindowVariables: `session.sessionId || ""` is the identity on
strings, the other two default the empty string. -/
def updateWindowVariables (s : Session) (st : StoreState) : StoreState :=
  { st with
    windowSessionId := s.sessionId,
    windowUserId := if s.userId = "" then "default" else s.userId,
    windowChannel := if s.channel = "" then "console" else s.channel }

/-- getLocalSession: resolve from the in-memory list only. -/
def getLocalSession (sid : String) (st : StoreState) : Session × StoreState :=
  match st.sessionList.find? (fun s => s.id == sid) with
  | none => createEmptySession sid st
  | some existing => (existing, updateWindowVariables existing st)

/-- Test of `/^\d+$/` on a session id. -/
def isNumericId (s : String) : Bool :=
  s.length ≠ 0 && s.data.all Char.isDigit

/-- Translation of `fetchSessionListFromBackend` (lines 77-90).  The
`remote` oracle is the settled outcome of `xrApi.listChats()`; the
function itself never throws because the catch branch falls back to the
persisted list.  Returns the resolved value and the new store state. -/
def fetchSessionListFromBackend (remote : Except Unit (List Session))
    (now : Nat) (st : StoreState) : List Session × StoreState :=
  match remote with
  | .ok sessions =>
    let filtered := sessions.filter
      (fun s => s.id != "" && s.id != "undefined" && s.id != "null")
    -- mapSessionSummary is the identity in this build
    let st1 := { st with sessionList := filtered.reverse }
    let st2 := persistSessionList st1
    let st3 := { st2 with lastFetchTime := now }
    (st3.sessionList, st3)
  | .error _ =>
    -- catch: this.sessionList = JSON.parse(localStorage.getItem(lsKey) || "[]")
    let restored := st.storage.getD []
    (restored, { st with sessionList := restored })

/-- Sequential-run model of `getSessionList` (lines 59-75): at entry no
other call is in flight (`fetchPromise === null`), so the call either
answers from the TTL-valid cache or performs the fetch.  Concurrent
interleavings are covered by the `ListMachine` model below. -/
def getSessionListSeq (remote : Except Unit (List Session)) (now : Nat)
    (st : StoreState) : List Session × StoreState :=
  if 0 < st.sessionList.length ∧ now - st.lastFetchTime < cacheTimeout then
    (st.sessionList, st)
  else fetchSessionListFromBackend remote now st

/-- Translation of `fetchSessionFromBackend` (lines 126-144).  The
`remote` oracle is the outcome of `xrApi.getChat(sessionId)`, already
defaulted by `remoteSession.messages || []`; a rejection propagates. -/
def fetchSessionFromBackend (remote : Except Unit (List String))
    (sid : String) (now : Nat) (st : StoreState) :
    Except Unit (Session × StoreState) :=
  match remote with
  | .error e => .error e
  | .ok msgs =>
    let localSession := st.sessionList.find? (fun s => s.id == sid)
    let merged : Session :=
      { id := sid,
        -- localSession?.name || sessionId (empty string is falsy)
        name := match localSession with
          | some l => if l.name = "" then sid else l.name
          | none => sid,
        sessionId := match localSession with
          | some l => if l.sessionId = "" then sid else l.sessionId
          | none => sid,
        userId := match localSession with
          | some l => if l.userId = "" then "default" else l.userId
          | none => "default",
        channel := match localSession with
          | some l => if l.channel = "" then "console" else l.channel
          | none => "console",
        -- normalizeMessages is the identity in this build
        messages := msgs,
        -- localSession?.meta || {}: an object is truthy even when empty
        meta := match localSession with
          | some l => l.meta
          | none => [] }
    let st1 := updateWindowVariables merged st
    let st2 := { st1 with
      sessionCache :=
        (sid, merged, now) :: st1.sessionCache.filter (fun e => e.1 != sid) }
    .ok (merged, st2)

/-- Sequential-run model of `getSession` (lines 92-124): at entry
`sessionFetchPromises` holds no promise for this id, so the in-flight
join branch does not fire.  The third component lists the session ids
for which a network request (`xrApi.getChat`) was issued. -/
def getSessionSeq (remote : Except Unit (List String)) (sid : String)
    (now : Nat) (st : StoreState) : Session × StoreState × List String :=
  -- if (!sessionId || sessionId === "undefined" || sessionId === "null")
  if sid = "" ∨ sid = "undefined" ∨ sid = "null" then
    let p := createEmptySession ("temp-" ++ toString now) st
    (p.1, p.2, [])
  -- if (/^\d+$/.test(sessionId)) return this.getLocalSession(sessionId);
  else if isNumericId sid then
    let p := getLocalSession sid st
    (p.1, p.2, [])
  else
    let fetchPath : Session × StoreState × List String :=
      match fetchSessionFromBackend remote sid now st with
      | .ok (s, st2) => (s, st2, [sid])
      | .error _ =>
        -- outer catch: fall back to the in-memory entry or a fresh session
        match st.sessionList.find? (fun s => s.id == sid) with
        | some cached => (cached, st, [sid])
        | none =>
          let p := createEmptySession sid st
          (p.1, p.2, [sid])
    match st.sessionCache.find? (fun e => e.1 == sid) with
    | some e =>
      if now - e.2.2 < sessionCacheTimeout then
        (e.2.1, updateWindowVariables e.2.1 st, [])
      else fetchPath
    | none => fetchPath

/-- Patch object passed to updateSession; absent fields are not spread. -/
structure SessionPatch where
  id : String
  name : Option String
  messages : Option (List String)
  meta : Option (List (String × String))
deriving Repr

/-- Spread merge \x7b ...old, ...patch \x7d. -/
def applyPatch (s : Session) (p : SessionPatch) : Session :=
  { id := p.id,
    name := p.name.getD s.name,
    sessionId := s.sessionId,
    userId := s.userId,
    channel := s.channel,
    messages := p.messages.getD s.messages,
    meta := p.meta.getD s.meta }

/-- Replace the first entry whose id matches the patch id (the slot
`findIndex` locates). -/
def updateFirst (p : SessionPatch) : List Session → List Session
  | [] => []
  | s :: rest =>
    if s.id == p.id then applyPatch s p :: rest
    else s :: updateFirst p rest

/-- Translation of `updateSession` (lines 146-156): merge and persist
only when `findIndex` succeeds; `lastFetchTime` is not touched. -/
def updateSession (patch : SessionPatch) (st : StoreState) :
    List Session × StoreState :=
  if st.sessionList.any (fun s => s.id == patch.id) then
    let st1 := { st with sessionList := updateFirst patch st.sessionList }
    let st2 := persistSessionList st1
    (st2.sessionList, st2)
  else (st.sessionList, st)

/-- Translation of `createSession` (lines 158-164). -/
def createSession (sess : Session) (now : Nat) (st : StoreState) :
    List Session × StoreState :=
  let s2 := { sess with id := toString now }
  let st1 := { st with sessionList := s2 :: st.sessionList }
  let st2 := persistSessionList st1
  let st3 := { st2 with lastFetchTime := now }
  (st3.sessionList, st3)

/-- Translation of `removeSession` (lines 166-185).  `remoteOk` is the
outcome of `await xrApi.deleteChat(sessionId)`; on rejection the catch
branch performs the same local removal. -/
def removeSession (sess : Session) (remoteOk : Bool) (now : Nat)
    (st : StoreState) : List Session × StoreState :=
  -- if (!session.id) return [...this.sessionList]; (runs before the await)
  if sess.id = "" then (st.sessionList, st)
  else if remoteOk then
    let st1 := { st with
      sessionList := st.sessionList.filter (fun item => item.id != sess.id) }
    let st2 := persistSessionList st1
    let st3 := { st2 with lastFetchTime := now }
    (st3.sessionList, st3)
  else
    -- catch branch: if (session.id) \x7b same removal \x7d (id known non-empty here)
    let st1 := { st with
      sessionList := st.sessionList.filter (fun item => item.id != sess.id) }
    let st2 := persistSessionList st1
    let st3 := { st2 with lastFetchTime := now }
    (st3.sessionList, st3)

/-! ### ListMachine: event-loop interleavings of getSessionList.

Each `getSessionList()` call runs synchronously from its entry to its
first await: it joins `fetchPromise` when set, answers from the
TTL-valid cache, or assigns `fetchPromise` and starts the one fetch —
assignments before the first await are atomic on the event loop.  The
network settlement and the awaiting caller's `finally` are separate
events.  `outstanding` lists the promise ids whose network request is
in flight; `resolvedVal` records settled promise values. -/

inductive CallerSt where
  | joined (p : Nat)
  | done (v : List Session)
deriving DecidableEq, Repr

structure MState where
  store : StoreState
  fetchPromise : Option Nat
  nextP : Nat
  outstanding : List Nat
  resolvedVal : Nat → Option (List Session)
  callers : List CallerSt
  fetchesStarted : Nat

inductive MEvent where
  | start (now : Nat)
  | settle (remote : Except Unit (List Session)) (now : Nat)
  | clearPromise

/-- Effect of one event on the machine state. -/
def applyEvent (st : MState) (e : MEvent) : MState :=
  match e with
  | .start now =>
    match st.fetchPromise with
    -- if (this.fetchPromise) return this.fetchPromise;
    | some p => { st with callers := st.callers ++ [CallerSt.joined p] }
    | none =>
      -- TTL-valid cache answers synchronously
      if 0 < st.store.sessionList.length ∧
          now - st.store.lastFetchTime < cacheTimeout then
        { st with callers := st.callers ++ [CallerSt.done st.store.sessionList] }
      else
        -- this.fetchPromise = this.fetchSessionListFromBackend();
        let p := st.nextP
        { st with fetchPromise := some p, nextP := p + 1,
                  outstanding := st.outstanding ++ [p],
                  fetchesStarted := st.fetchesStarted + 1,
                  callers := st.callers ++ [CallerSt.joined p] }
  | .settle remote now =>
    -- the in-flight listChats request settles; the continuation of
    -- fetchSessionListFromBackend runs and resolves its promise
    match st.outstanding with
    | [] => st
    | p :: _ =>
      let r := fetchSessionListFromBackend remote now st.store
      { st with store := r.2,
                outstanding := st.outstanding.filter (fun q => q ≠ p),
                resolvedVal := fun q => if q = p then some r.1 else st.resolvedVal q }
  | .clearPromise =>
    -- finally \x7b this.fetchPromise = null \x7d of the awaiting caller,
    -- runnable once the awaited promise has settled
    match st.fetchPromise with
    | some p =>
      if (st.resolvedVal p).isSome then { st with fetchPromise := none } else st
    | none => st

/-- Fold a list of events over a state. -/
def applyEvents (st : MState) (es : List MEvent) : MState :=
  es.foldl applyEvent st

/-- Machine state of a freshly constructed store (page load): empty
in-memory list, epoch 0, storage key in an arbitrary state. -/
def coldInit (storage : Option (List Session)) : MState :=
  { store := { sessionList := [], storage := storage, lastFetchTime := 0,
               sessionCache := [], windowSessionId := "",
               windowUserId := "", windowChannel := "" },
    fetchPromise := none, nextP := 0, outstanding := [],
    resolvedVal := fun _ => none, callers := [], fetchesStarted := 0 }

/-- Value a caller observes: its joined promise's resolution, or the
synchronously returned cached list. -/
def callerValue (st : MState) : CallerSt → Option (List Session)
  | .joined p => st.resolvedVal p
  | .done v => some v

/-! ### Concrete fixtures used by witnesses and counterexamples -/

/-- Stream chunk carrying the delta "Hel" (claim C1's first chunk). -/
def streamChunk1 : List Char := "data: \x7b\"delta\":\"Hel\"\x7d\n".toList

/-- Stream chunk carrying the delta "lo" (claim C1's second chunk). -/
def streamChunk2 : List Char := "data: \x7b\"delta\":\"lo\"\x7d\n".toList

/-- Stream chunk carrying the DONE sentinel (claim C1's third chunk). -/
def streamChunk3 : List Char := "data: [DONE]\n".toList

/-- Sample server-known session. -/
def sessionA : Session :=
  { id := "a", name := "alpha", sessionId := "sess-a", userId := "u1",
    channel := "console", messages := [], meta := [] }

/-- Sample store state holding `sessionA` in memory and in storage. -/
def storeA : StoreState :=
  { sessionList := [sessionA], storage := some [sessionA],
    lastFetchTime := 0, sessionCache := [],
    windowSessionId := "", windowUserId := "", windowChannel := "" }

/-- Patch renaming `sessionA`. -/
def patchA : SessionPatch :=
  { id := "a", name := some "renamed", messages := none, meta := none }

/-- Invariant backing the single-flight property: every in-flight fetch
is the one `fetchPromise` points to, is unresolved, and uses a promise
id below the freshness counter; resolved ids are below the counter; and
at most one fetch is in flight. -/
def ListInv (st : MState) : Prop :=
  (∀ p ∈ st.outstanding,
    st.fetchPromise = some p ∧ st.resolvedVal p = none ∧ p < st.nextP) ∧
  (∀ q, (st.resolvedVal q).isSome → q < st.nextP) ∧
  st.outstanding.length ≤ 1

end Copaw

/-! ## Theorems -/

namespace Copaw

/-- C1, counterexample.  For the three chunks
`data: \x7b"delta":"Hel"\x7d\n`, `data: \x7b"delta":"lo"\x7d\n`,
`data: [DONE]\n`, the callback passed to `sendAgentMessage` is NOT
invoked with the cumulative values "Hel" then "Hello": `parseStreamLine`
passes each extracted delta through unchanged, so the second invocation
receives "lo". -/
theorem C1_not_cumulative :
    sendAgentMessageEmissions [streamChunk1, streamChunk2, streamChunk3]
      ≠ ["Hel", "Hello"] := by
  decide

/-- C1, amended.  For those chunks the callback passed to
`sendAgentMessage` is invoked exactly twice, with the delta values "Hel"
then "lo" (diffs, not cumulative text), and is not invoked for the
`[DONE]` line; the cumulative assembled values "Hel" then "Hello" are
instead the successive `streamedText` states kept by the ChatPage
callback that receives those deltas. -/
theorem C1_stream_deltas :
    sendAgentMessageEmissions [streamChunk1, streamChunk2, streamChunk3]
        = ["Hel", "lo"] ∧
      assembledTexts
          (sendAgentMessageEmissions [streamChunk1, streamChunk2, streamChunk3])
        = ["Hel", "Hello"] := by
  decide

/-- Helper: the delta-object branch equals rule 2 chained with rule 3. -/
theorem deltaObjTextContent_eq_rules (j : Json) :
    deltaObjTextContent j =
      (match ruleDeltaTextField j with
       | some t => some t
       | none => ruleDeltaContentField j) := by
  unfold deltaObjTextContent ruleDeltaTextField ruleDeltaContentField
  cases hd : j.getField "delta" with
  | none => rfl
  | some dv => cases dv <;> simp [Json.asStr, Json.isObjLike, Json.getField]

/-- Helper: the spec-side first-match extraction equals the cascade. -/
theorem spec_eq_cascade (j : Json) :
    extractDeltaTextSpec j = deltaRuleCascade j := by
  unfold extractDeltaTextSpec deltaRuleCascade deltaRules
  cases h1 : ruleTopDelta j <;> cases h2 : ruleDeltaTextField j <;>
    cases h3 : ruleDeltaContentField j <;> cases h4 : ruleTextDelta j <;>
    cases h5 : ruleToken j <;> cases h6 : ruleChoices j <;>
    simp [firstRule, h1, h2, h3, h4, h5, h6]

/-- Helper: the code's extraction equals the cascade. -/
theorem extract_eq_cascade (j : Json) :
    extractDeltaText j = deltaRuleCascade j := by
  cases j with
  | null => rfl
  | bool b => rfl
  | num s => rfl
  | str s => rfl
  | arr es => rfl
  | obj fields =>
    unfold extractDeltaText
    simp only [Json.isObjLike, Bool.not_true, Bool.false_eq_true, if_false]
    rw [deltaObjTextContent_eq_rules]
    unfold deltaRuleCascade
    have e1 : Json.asStr (Json.getField (Json.obj fields) "delta")
        = ruleTopDelta (Json.obj fields) := rfl
    have e4 : Json.asStr (Json.getField (Json.obj fields) "text_delta")
        = ruleTextDelta (Json.obj fields) := rfl
    have e5 : Json.asStr (Json.getField (Json.obj fields) "token")
        = ruleToken (Json.obj fields) := rfl
    rw [e1, e4, e5]
    cases h1 : ruleTopDelta (Json.obj fields) <;> simp only [h1]
    cases h2 : ruleDeltaTextField (Json.obj fields) <;> simp only [h2]
    · cases h3 : ruleDeltaContentField (Json.obj fields) <;> simp only [h3]
      cases h4 : ruleTextDelta (Json.obj fields) <;> simp only [h4]
      cases h5 : ruleToken (Json.obj fields) <;> simp only [h5]
      unfold ruleChoices
      cases hch : Json.getField (Json.obj fields) "choices" with
      | none => rfl
      | some cv =>
        cases cv with
        | arr cs =>
          simp only [Option.getD_some]
          apply List.foldl_ext
          intro a c hc
          cases hcd : c.getField "delta" with
          | none => rfl
          | some dd => simp [hcd]
        | null => rfl
        | bool b => rfl
        | num s => rfl
        | str s => rfl
        | obj f2 => rfl

/-- C3.  The delta extracted by `extractDeltaText` follows exactly the
fixed precedence top-level string `delta`, `delta.text`,
`delta.content`, `text_delta`, `token`, concatenated
`choices[].delta.content` — first matching rule wins (the code equals
the ordered-rules formulation of the spec) — and a line whose extracted
delta is empty (in particular, when no rule matched) produces no
`onTextChunk` invocation. -/
theorem C3_delta_precedence :
    (∀ j : Json, extractDeltaText j = extractDeltaTextSpec j) ∧
      (∀ (line : List Char) (d : String),
        parseStreamLine line = some d → d ≠ "") := by
  constructor
  · intro j
    rw [extract_eq_cascade, spec_eq_cascade]
  · intro line d h
    unfold parseStreamLine at h
    dsimp only at h
    repeat' split at h
    all_goals
      first
        | (rename_i hne
           rw [Option.some_inj.mp h] at hne
           exact hne)
        | simp at h

/-- C3, witness: a concrete payload and a concrete emitted line. -/
theorem C3_delta_precedence_witness :
    extractDeltaText (Json.obj [("delta", Json.str "Hel")])
        = extractDeltaTextSpec (Json.obj [("delta", Json.str "Hel")]) ∧
      ("Hel" : String) ≠ "" :=
  ⟨C3_delta_precedence.1 _,
   C3_delta_precedence.2 ("data: \x7b\"delta\":\"Hel\"\x7d".toList) "Hel"
     (by decide)⟩

/-- Equation: split of the empty input. -/
theorem splitGo_nil (acc : List Char) : splitGo acc [] = ([], acc) := rfl

/-- Equation: a CRLF separator ends the current segment. -/
theorem splitGo_crlf (acc rest : List Char) :
    splitGo acc ('\r' :: '\n' :: rest)
      = (acc :: (splitGo [] rest).1, (splitGo [] rest).2) := rfl

/-- Equation: a bare LF separator ends the current segment. -/
theorem splitGo_newline (acc rest : List Char) :
    splitGo acc ('\n' :: rest)
      = (acc :: (splitGo [] rest).1, (splitGo [] rest).2) := rfl

/-- Equation: a CR not followed by LF joins the current segment. -/
theorem splitGo_cr_other (acc : List Char) (c2 : Char) (rest : List Char)
    (h : c2 ≠ '\n') :
    splitGo acc ('\r' :: c2 :: rest)
      = splitGo (acc ++ ['\r']) (c2 :: rest) := by
  simp [splitGo, h]

/-- Equation: an ordinary character joins the current segment. -/
theorem splitGo_other (acc : List Char) (c : Char) (rest : List Char)
    (h1 : c ≠ '\n') (h2 : c ≠ '\r') :
    splitGo acc (c :: rest) = splitGo (acc ++ [c]) rest := by
  simp [splitGo, h1, h2]

/-- Helper: the regex split equals the character fold, provided a
buffered trailing CR is never immediately followed by the next input
starting with LF — which cannot happen when the fold starts with an
empty segment, since the split consumes CRLF pairs whole. -/
theorem charFold_eq_splitGo :
    ∀ (n : Nat) (s : List Char), s.length ≤ n →
      ∀ (acc : List Char) (ls0 : List (List Char)),
        (acc.getLast? = some '\r' → s.head? ≠ some '\n') →
        List.foldl jsSplitStep (ls0, acc) s
          = (ls0 ++ (splitGo acc s).1, (splitGo acc s).2) := by
  intro n
  induction n with
  | zero =>
    intro s hs acc ls0 _
    have hnil : s = [] := List.eq_nil_of_length_eq_zero (Nat.le_zero.mp hs)
    subst hnil
    simp [splitGo_nil]
  | succ n ih =>
    intro s hs acc ls0 hyp
    cases s with
    | nil => simp [splitGo_nil]
    | cons c t =>
      by_cases hc : c = '\n'
      · subst hc
        have hacc : ¬ acc.getLast? = some '\r' := fun h => (hyp h) (by simp)
        rw [List.foldl_cons,
          show jsSplitStep (ls0, acc) '\n' = (ls0 ++ [acc], []) from by
            simp [jsSplitStep, hacc],
          ih t (by simp at hs; omega) [] (ls0 ++ [acc]) (by simp),
          splitGo_newline]
        simp
      · by_cases hr : c = '\r'
        · subst hr
          cases t with
          | nil => simp [jsSplitStep, splitGo]
          | cons c2 t2 =>
            by_cases hc2 : c2 = '\n'
            · subst hc2
              rw [List.foldl_cons, List.foldl_cons,
                show jsSplitStep (ls0, acc) '\r' = (ls0, acc ++ ['\r'])
                  from by simp [jsSplitStep],
                show jsSplitStep (ls0, acc ++ ['\r']) '\n' = (ls0 ++ [acc], [])
                  from by
                    simp [jsSplitStep, List.getLast?_concat,
                      List.dropLast_concat],
                ih t2 (by simp at hs; omega) [] (ls0 ++ [acc]) (by simp),
                splitGo_crlf]
              simp
            · rw [List.foldl_cons,
                show jsSplitStep (ls0, acc) '\r' = (ls0, acc ++ ['\r'])
                  from by simp [jsSplitStep],
                ih (c2 :: t2) (by simp at hs ⊢; omega) (acc ++ ['\r']) ls0
                  (by
                    intro _ hhead
                    exact hc2 (by simpa using hhead)),
                splitGo_cr_other acc c2 t2 hc2]
        · rw [List.foldl_cons,
            show jsSplitStep (ls0, acc) c = (ls0, acc ++ [c]) from by
              simp [jsSplitStep, hc],
            ih t (by simp at hs; omega) (acc ++ [c]) ls0
              (by
                intro hlast
                rw [List.getLast?_concat] at hlast
                exact absurd (Option.some_inj.mp hlast) hr),
            splitGo_other acc c t hc hr]

/-- Helper: splitting newline-free input yields no complete line. -/
theorem splitGo_no_newline :
    ∀ (s : List Char) (acc : List Char), '\n' ∉ s →
      splitGo acc s = ([], acc ++ s) := by
  intro s
  induction s with
  | nil => intro acc _; simp [splitGo_nil]
  | cons c t ih =>
    intro acc hmem
    have hc : c ≠ '\n' := fun h => hmem (by simp [h])
    have ht : '\n' ∉ t := fun h => hmem (List.mem_cons_of_mem _ h)
    by_cases hr : c = '\r'
    · subst hr
      cases t with
      | nil => simp [splitGo]
      | cons c2 t2 =>
        have hc2 : c2 ≠ '\n' := fun h => ht (by simp [h])
        rw [splitGo_cr_other acc c2 t2 hc2, ih (acc ++ ['\r']) ht]
        simp
    · rw [splitGo_other acc c t hc hr, ih (acc ++ [c]) ht]
      simp

/-- Helper: the character fold keeps its buffer newline-free. -/
theorem charFold_buf_no_newline :
    ∀ (s : List Char) (st : List (List Char) × List Char), '\n' ∉ st.2 →
      '\n' ∉ (List.foldl jsSplitStep st s).2 := by
  intro s
  induction s with
  | nil => intro st h; exact h
  | cons c t ih =>
    intro st h
    rw [List.foldl_cons]
    by_cases hc : c = '\n'
    · subst hc
      by_cases hl : st.2.getLast? = some '\r'
      · exact ih _ (by simp [jsSplitStep, hl])
      · exact ih _ (by simp [jsSplitStep, hl])
    · refine ih _ ?_
      rw [show jsSplitStep st c = (st.1, st.2 ++ [c]) from by
        simp [jsSplitStep, hc]]
      intro hmem
      rcases List.mem_append.mp hmem with hmem | hmem
      · exact h hmem
      · have hcn : '\n' = c := by simpa using hmem
        exact hc hcn.symm

/-- Helper: the trailing segment kept as buffer is newline-free. -/
theorem splitGo_buf_no_newline (s : List Char) :
    '\n' ∉ (splitGo ([] : List Char) s).2 := by
  have h := charFold_eq_splitGo s.length s le_rfl [] [] (by simp)
  have h2 := charFold_buf_no_newline s (([] : List (List Char)),
    ([] : List Char)) (by simp)
  rw [h] at h2
  exact h2

/-- Helper: folding newline-free input only extends the buffer. -/
theorem charFold_no_newline :
    ∀ (buf : List Char) (acc : List Char) (ls0 : List (List Char)),
      '\n' ∉ buf →
      List.foldl jsSplitStep (ls0, acc) buf = (ls0, acc ++ buf) := by
  intro buf
  induction buf with
  | nil => intro acc ls0 _; simp
  | cons c t ih =>
    intro acc ls0 hmem
    have hc : c ≠ '\n' := fun h => hmem (by simp [h])
    rw [List.foldl_cons,
      show jsSplitStep (ls0, acc) c = (ls0, acc ++ [c]) from by
        simp [jsSplitStep, hc],
      ih (acc ++ [c]) ls0 (fun h => hmem (List.mem_cons_of_mem _ h))]
    simp

/-- Helper: re-splitting the kept buffer prefixed to the next input
equals splitting the concatenation — the composition law of the split
loop. -/
theorem splitGo_append_eq (s t : List Char) :
    splitGo [] (s ++ t)
      = ((splitGo [] s).1 ++ (splitGo [] ((splitGo [] s).2 ++ t)).1,
         (splitGo [] ((splitGo [] s).2 ++ t)).2) := by
  have h1 := charFold_eq_splitGo (s ++ t).length (s ++ t) le_rfl [] []
    (by simp)
  have h2 := charFold_eq_splitGo s.length s le_rfl [] [] (by simp)
  have h4 := charFold_eq_splitGo ((splitGo [] s).2 ++ t).length
    ((splitGo [] s).2 ++ t) le_rfl [] ((splitGo [] s).1) (by simp)
  have hchain : List.foldl jsSplitStep (([] : List (List Char)),
      ([] : List Char)) (s ++ t)
      = ((splitGo [] s).1 ++ (splitGo [] ((splitGo [] s).2 ++ t)).1,
         (splitGo [] ((splitGo [] s).2 ++ t)).2) := by
    rw [List.foldl_append, h2]
    simp only [List.nil_append]
    rw [show List.foldl jsSplitStep ((splitGo [] s).1, (splitGo [] s).2) t
        = List.foldl jsSplitStep ((splitGo [] s).1, [])
            ((splitGo [] s).2 ++ t) from by
      rw [List.foldl_append,
        charFold_no_newline (splitGo [] s).2 [] ((splitGo [] s).1)
          (splitGo_buf_no_newline s)]
      simp]
    rw [h4]
  rw [h1] at hchain
  simpa using hchain

/-- Helper: the chunk loop of sendAgentMessage equals one split of the
concatenated input. -/
theorem foldl_streamStep_join :
    ∀ (cs : List (List Char)) (out0 : List String) (buf0 : List Char),
      '\n' ∉ buf0 →
      List.foldl streamStep (out0, buf0) cs
        = (out0 ++ ((splitGo [] (buf0 ++ cs.flatten)).1).filterMap
              parseStreamLine,
           (splitGo [] (buf0 ++ cs.flatten)).2) := by
  intro cs
  induction cs with
  | nil =>
    intro out0 buf0 h
    simp [splitGo_no_newline buf0 [] h]
  | cons c cs ih =>
    intro out0 buf0 h
    rw [List.foldl_cons]
    rw [show streamStep (out0, buf0) c
        = (out0 ++ ((splitGo [] (buf0 ++ c)).1).filterMap parseStreamLine,
           (splitGo [] (buf0 ++ c)).2) from rfl]
    rw [ih _ _ (splitGo_buf_no_newline (buf0 ++ c))]
    rw [show buf0 ++ (c :: cs).flatten = (buf0 ++ c) ++ cs.flatten from by
      simp [List.append_assoc]]
    rw [splitGo_append_eq (buf0 ++ c) cs.flatten]
    simp [List.filterMap_append, List.append_assoc]

/-- C10.  The sequence of onTextChunk invocations produced by the
sendAgentMessage stream loop depends only on the concatenation of the
decoded chunks, not on the chunk boundaries: every complete line is
processed exactly once and the trailing unterminated fragment once at
stream end, so any partition of the same content — including the whole
content as a single chunk — yields the same emission sequence. -/
theorem C10_chunking_independence (cs1 cs2 : List (List Char))
    (h : cs1.flatten = cs2.flatten) :
    sendAgentMessageEmissions cs1 = sendAgentMessageEmissions cs2 ∧
      sendAgentMessageEmissions cs1
        = sendAgentMessageEmissions [cs1.flatten] := by
  have key : ∀ cs : List (List Char),
      sendAgentMessageEmissions cs
        = ((splitGo [] cs.flatten).1).filterMap parseStreamLine ++
            (if (splitGo [] cs.flatten).2 = [] then []
             else (parseStreamLine (splitGo [] cs.flatten).2).toList) := by
    intro cs
    rw [sendAgentMessageEmissions,
      foldl_streamStep_join cs [] [] (by simp)]
    simp
  refine ⟨?_, ?_⟩
  · rw [key cs1, key cs2, h]
  · rw [key cs1, key [cs1.flatten]]
    simp
/-- C10, witness: the same stream content cut at two different
boundaries yields the same emissions. -/
theorem C10_chunking_independence_witness :
    sendAgentMessageEmissions
        ["data: \x7b\"token\":\"ab\"\x7d\nda".toList, "ta: [DONE]\n".toList]
        = sendAgentMessageEmissions
            ["data: \x7b\"token\":\"ab\"\x7d\ndata: [DONE]\n".toList] ∧
      sendAgentMessageEmissions
          ["data: \x7b\"token\":\"ab\"\x7d\nda".toList, "ta: [DONE]\n".toList]
        = sendAgentMessageEmissions
            [(["data: \x7b\"token\":\"ab\"\x7d\nda".toList,
               "ta: [DONE]\n".toList] : List (List Char)).flatten] :=
  C10_chunking_independence
    ["data: \x7b\"token\":\"ab\"\x7d\nda".toList, "ta: [DONE]\n".toList]
    ["data: \x7b\"token\":\"ab\"\x7d\ndata: [DONE]\n".toList]
    (by decide)

/-- C4.  For every session with a non-empty id, `removeSession` filters
every entry with that id out of the in-memory list and writes the result
through to the persisted list, both when the remote delete resolves and
when it rejects. -/
theorem C4_optimistic_delete (sess : Session) (remoteOk : Bool) (now : Nat)
    (st : StoreState) (h : sess.id ≠ "") :
    (removeSession sess remoteOk now st).2.sessionList
        = st.sessionList.filter (fun item => item.id != sess.id) ∧
      (∀ x ∈ (removeSession sess remoteOk now st).2.sessionList,
        x.id ≠ sess.id) ∧
      (removeSession sess remoteOk now st).2.storage
        = some (removeSession sess remoteOk now st).2.sessionList := by
  cases remoteOk <;>
    simp [removeSession, persistSessionList, h, List.mem_filter]

/-- C4, witness at a concrete input. -/
theorem C4_optimistic_delete_witness :
    (removeSession sessionA false 7 storeA).2.sessionList
        = storeA.sessionList.filter (fun item => item.id != sessionA.id) ∧
      (∀ x ∈ (removeSession sessionA false 7 storeA).2.sessionList,
        x.id ≠ sessionA.id) ∧
      (removeSession sessionA false 7 storeA).2.storage
        = some (removeSession sessionA false 7 storeA).2.sessionList :=
  C4_optimistic_delete sessionA false 7 storeA (by decide)

/-- C9.  When the network list fetch fails and the Persistent Store
holds a previously persisted list, `fetchSessionListFromBackend` (and so
`getSessionList` in a state that actually fetches) resolves to that
persisted list after replacing the in-memory list with it; the function
returns normally (the catch branch swallows the failure). -/
theorem C9_persisted_fallback (st : StoreState) (persisted : List Session)
    (now : Nat) (hs : st.storage = some persisted)
    (hmiss : ¬(0 < st.sessionList.length ∧
      now - st.lastFetchTime < cacheTimeout)) :
    fetchSessionListFromBackend (Except.error ()) now st
        = (persisted, { st with sessionList := persisted }) ∧
      getSessionListSeq (Except.error ()) now st
        = (persisted, { st with sessionList := persisted }) := by
  constructor
  · simp [fetchSessionListFromBackend, hs]
  · simp [getSessionListSeq, hmiss, fetchSessionListFromBackend, hs]

/-- C9, witness at a concrete input (cold in-memory list, warm storage). -/
theorem C9_persisted_fallback_witness :
    fetchSessionListFromBackend (Except.error ()) 9
        { sessionList := [], storage := some [sessionA], lastFetchTime := 0,
          sessionCache := [], windowSessionId := "", windowUserId := "",
          windowChannel := "" }
      = ([sessionA],
         { sessionList := [sessionA], storage := some [sessionA],
           lastFetchTime := 0, sessionCache := [], windowSessionId := "",
           windowUserId := "", windowChannel := "" }) :=
  (C9_persisted_fallback _ [sessionA] 9 (by decide) (by decide)).1

/-- C7, counterexample.  `updateSession` never reads the clock: after a
successful update of `sessionA` at current time 1000, `lastFetchTime`
still holds its old value 0, so the list TTL clock is not reset as the
claim states. -/
theorem C7_ttl_not_reset :
    (updateSession patchA storeA).2.lastFetchTime = 0 ∧ (0 : Nat) ≠ 1000 := by
  decide

/-- C7, amended.  After every successful `createSession`, and after
every successful `removeSession` with a non-empty id, the persisted list
equals the in-memory list and `lastFetchTime` is reset to the current
time; `updateSession` writes through only when the patched id is present
in the list (otherwise it changes nothing) and never resets
`lastFetchTime`. -/
theorem C7_write_through (sess s : Session) (patch : SessionPatch)
    (now : Nat) (st : StoreState) (remoteOk : Bool) (h : s.id ≠ "") :
    ((createSession sess now st).2.storage
        = some (createSession sess now st).2.sessionList ∧
      (createSession sess now st).2.lastFetchTime = now) ∧
    ((removeSession s remoteOk now st).2.storage
        = some (removeSession s remoteOk now st).2.sessionList ∧
      (removeSession s remoteOk now st).2.lastFetchTime = now) ∧
    ((updateSession patch st).2.lastFetchTime = st.lastFetchTime ∧
      ((∃ x ∈ st.sessionList, x.id = patch.id) →
        (updateSession patch st).2.storage
          = some (updateSession patch st).2.sessionList) ∧
      ((¬ ∃ x ∈ st.sessionList, x.id = patch.id) →
        (updateSession patch st).2 = st)) := by
  refine ⟨⟨rfl, rfl⟩, ⟨?_, ?_⟩, ?_, ?_, ?_⟩
  · cases remoteOk <;> simp [removeSession, persistSessionList, h]
  · cases remoteOk <;> simp [removeSession, persistSessionList, h]
  · by_cases hfound : st.sessionList.any (fun x => x.id == patch.id) <;>
      simp [updateSession, persistSessionList, hfound]
  · intro hex
    have hfound : st.sessionList.any (fun x => x.id == patch.id) := by
      rcases hex with ⟨x, hx, hid⟩
      exact List.any_eq_true.mpr ⟨x, hx, beq_iff_eq.mpr hid⟩
    simp [updateSession, persistSessionList, hfound]
  · intro hnex
    have hfound : ¬ st.sessionList.any (fun x => x.id == patch.id) := by
      intro hc
      rcases List.any_eq_true.mp hc with ⟨x, hx, hid⟩
      exact hnex ⟨x, hx, beq_iff_eq.mp hid⟩
    simp [updateSession, hfound]

/-- C6.  For every purely numeric id, `getSession` issues no network
request and returns the matching in-memory entry, or a freshly
synthesized empty session with that id when none matches. -/
theorem C6_numeric_isolation (remote : Except Unit (List String))
    (sid : String) (now : Nat) (st : StoreState)
    (h : isNumericId sid = true) :
    (getSessionSeq remote sid now st).2.2 = [] ∧
      (getSessionSeq remote sid now st).1 =
        (match st.sessionList.find? (fun s => s.id == sid) with
         | some existing => existing
         | none => emptySessionValue sid) := by
  have h1 : ¬(sid = "" ∨ sid = "undefined" ∨ sid = "null") := by
    rintro (h2 | h2 | h2) <;> (subst h2; revert h; decide)
  unfold getSessionSeq
  rw [if_neg h1, if_pos h]
  unfold getLocalSession
  cases hfind : st.sessionList.find? (fun s => s.id == sid) <;>
    simp [hfind, createEmptySession]

/-- C6, witness at a concrete input: id "42" is absent from the list. -/
theorem C6_numeric_isolation_witness :
    (getSessionSeq (Except.error ()) "42" 5 storeA).2.2 = [] ∧
      (getSessionSeq (Except.error ()) "42" 5 storeA).1 =
        (match storeA.sessionList.find? (fun s => s.id == "42") with
         | some existing => existing
         | none => emptySessionValue "42") :=
  C6_numeric_isolation (Except.error ()) "42" 5 storeA (by decide)

/-- Shape of the events emitted by the ChatPage stream callback: only
callback invocations, the first-delta timer clear, and history
replacements. -/
theorem mem_chunkEventsGo (cs : List String) :
    ∀ (has : Bool) (acc : String) (e : ChatEvent),
      e ∈ chunkEventsGo has acc cs →
        (∃ c, e = ChatEvent.callbackChunk c) ∨ e = ChatEvent.clearTimer ∨
          (∃ t, e = ChatEvent.historySet t) := by
  induction cs with
  | nil => intro has acc e h; simp [chunkEventsGo] at h
  | cons c cs ih =>
    intro has acc e h
    simp only [chunkEventsGo] at h
    rcases List.mem_cons.mp h with h | h
    · exact Or.inl ⟨c, h⟩
    by_cases hc : c = ""
    · rw [if_pos hc] at h
      exact ih has acc e h
    rw [if_neg hc] at h
    rcases List.mem_append.mp h with h | h
    · cases has with
      | true => simp at h
      | false =>
        rw [List.mem_singleton.mp h]
        exact Or.inr (Or.inl rfl)
    rcases List.mem_cons.mp h with h | h
    · exact Or.inr (Or.inr ⟨_, h⟩)
    exact ih true _ e h

/-- C5.  Every send that reaches the request ends, after settlement
(success or failure, deltas or none), with the timer clear followed by
exactly one chat-list refresh and one history refetch, neither of which
occurs earlier in the send's own effect trace. -/
theorem C5_reconciliation (chunks : List String) (ok : Bool) :
    ∃ p, sendMessageTrace chunks ok
        = p ++ [ChatEvent.clearTimer, ChatEvent.setSendingFalse,
                ChatEvent.loadChats, ChatEvent.loadHistory] ∧
      ChatEvent.loadChats ∉ p ∧ ChatEvent.loadHistory ∉ p := by
  refine ⟨[ChatEvent.appendOptimistic, ChatEvent.startTimer] ++
      chunkEvents chunks ++ errEvents ok, ?_, ?_, ?_⟩
  · simp [sendMessageTrace, finallyEvents, List.append_assoc]
  · intro hmem
    rcases List.mem_append.mp hmem with hmem | hmem
    · rcases List.mem_append.mp hmem with hmem | hmem
      · simp at hmem
      · rcases mem_chunkEventsGo chunks false "" _ hmem with ⟨c, hc⟩ | hc | ⟨t, ht⟩ <;>
          simp_all
    · cases ok <;> simp [errEvents] at hmem
  · intro hmem
    rcases List.mem_append.mp hmem with hmem | hmem
    · rcases List.mem_append.mp hmem with hmem | hmem
      · simp at hmem
      · rcases mem_chunkEventsGo chunks false "" _ hmem with ⟨c, hc⟩ | hc | ⟨t, ht⟩ <;>
          simp_all
    · cases ok <;> simp [errEvents] at hmem

/-- Helper: transition count of a concatenation splits at the middle
timer state. -/
theorem stopsGo_append (l1 l2 : List ChatEvent) (b : Bool) :
    stopsGo b (l1 ++ l2) = stopsGo b l1 + stopsGo (l1.foldl timerStep b) l2 := by
  induction l1 generalizing b with
  | nil => simp [stopsGo]
  | cons e l1 ih => simp [stopsGo, ih, Nat.add_assoc]

/-- Helper: callback invocations alone do not move the timer. -/
theorem timerState_map_cb (cs : List String) (b : Bool) :
    List.foldl timerStep b (cs.map ChatEvent.callbackChunk) = b := by
  induction cs generalizing b with
  | nil => rfl
  | cons c cs ih => simpa [timerStep] using ih b

/-- Helper: callback invocations alone never stop the timer. -/
theorem stops_map_cb (cs : List String) (b : Bool) :
    stopsGo b (cs.map ChatEvent.callbackChunk) = 0 := by
  induction cs generalizing b with
  | nil => rfl
  | cons c cs ih => simp [stopsGo, timerStep, ih]

/-- Helper: once `hasStreamChunk` is set, the callback changes neither
the timer state nor the stop count. -/
theorem timerState_chunkTrue (cs : List String) :
    ∀ (acc : String) (b : Bool),
      List.foldl timerStep b (chunkEventsGo true acc cs) = b := by
  induction cs with
  | nil => intro acc b; rfl
  | cons c cs ih =>
    intro acc b
    by_cases hc : c = "" <;> simp [chunkEventsGo, hc, timerStep, ih]

/-- Helper: with `hasStreamChunk` set, no stop occurs. -/
theorem stops_chunkTrue (cs : List String) :
    ∀ (acc : String) (b : Bool), stopsGo b (chunkEventsGo true acc cs) = 0 := by
  induction cs with
  | nil => intro acc b; rfl
  | cons c cs ih =>
    intro acc b
    by_cases hc : c = "" <;> simp [chunkEventsGo, hc, stopsGo, timerStep, ih]

/-- Helper: the catch branch does not move the timer. -/
theorem timerState_err (ok : Bool) (b : Bool) :
    List.foldl timerStep b (errEvents ok) = b := by
  cases ok <;> rfl

/-- Helper: the catch branch never stops the timer. -/
theorem stops_err (ok : Bool) (b : Bool) : stopsGo b (errEvents ok) = 0 := by
  cases ok <;> simp [errEvents, stopsGo, timerStep]

/-- Helper: the finally block always leaves the timer stopped. -/
theorem timerState_finally (b : Bool) :
    List.foldl timerStep b finallyEvents = false := by
  cases b <;> decide

/-- Helper: the settlement clear stops a running timer exactly once. -/
theorem stops_finally_true : stopsGo true finallyEvents = 1 := by decide

/-- Helper: the settlement clear is a no-op on a stopped timer. -/
theorem stops_finally_false : stopsGo false finallyEvents = 0 := by decide

/-- Helper: the opening events leave the timer running, no stop yet. -/
theorem timerState_opening :
    List.foldl timerStep false
      [ChatEvent.appendOptimistic, ChatEvent.startTimer] = true := by decide

/-- Helper: the opening events produce no stop. -/
theorem stops_opening :
    stopsGo false [ChatEvent.appendOptimistic, ChatEvent.startTimer] = 0 := by
  decide

/-- Helper: an all-empty run of leading chunks only produces callback
events. -/
theorem chunkEventsGo_all_empty :
    ∀ (emp : List String), (∀ x ∈ emp, x = "") →
      ∀ (l : List String) (has : Bool) (acc : String),
        chunkEventsGo has acc (emp ++ l)
          = emp.map ChatEvent.callbackChunk ++ chunkEventsGo has acc l
  | [], _, l, has, acc => by simp
  | e :: emp, hemp, l, has, acc => by
    have he : e = "" := hemp e (List.mem_cons_self e emp)
    subst he
    have ih := chunkEventsGo_all_empty emp
      (fun x hx => hemp x (List.mem_cons_of_mem _ hx)) l has acc
    simp [chunkEventsGo, ih]

/-- Helper: a chunk list is all-empty or splits at its first non-empty
chunk. -/
theorem chunks_dichotomy :
    ∀ (chunks : List String),
      (∀ x ∈ chunks, x = "") ∨
        ∃ emp c rest, chunks = emp ++ c :: rest ∧
          (∀ x ∈ emp, x = "") ∧ c ≠ ""
  | [] => Or.inl (by simp)
  | c :: cs => by
    by_cases hc : c = ""
    · subst hc
      rcases chunks_dichotomy cs with h | ⟨emp, c2, rest, heq, hemp, hc2⟩
      · refine Or.inl ?_
        intro x hx
        rcases List.mem_cons.mp hx with rfl | hx
        · rfl
        · exact h x hx
      · refine Or.inr ⟨"" :: emp, c2, rest, by simp [heq], ?_, hc2⟩
        intro x hx
        rcases List.mem_cons.mp hx with rfl | hx
        · rfl
        · exact hemp x hx
    · exact Or.inr ⟨[], c, cs, rfl, by simp, hc⟩

/-- Helper: chunk events of an all-empty run are plain callbacks. -/
theorem chunkEvents_all_empty (chunks : List String)
    (hall : ∀ x ∈ chunks, x = "") :
    chunkEvents chunks = chunks.map ChatEvent.callbackChunk := by
  have h2 := chunkEventsGo_all_empty chunks hall [] false ""
  rw [List.append_nil] at h2
  simpa [chunkEvents, chunkEventsGo] using h2

/-- Helper: chunk events around the first non-empty chunk. -/
theorem chunkEvents_first_delta (emp : List String) (c : String)
    (rest : List String) (hemp : ∀ x ∈ emp, x = "") (hc : c ≠ "") :
    chunkEvents (emp ++ c :: rest)
      = emp.map ChatEvent.callbackChunk ++
          (ChatEvent.callbackChunk c :: ChatEvent.clearTimer ::
            ChatEvent.historySet ("" ++ c) ::
              chunkEventsGo true ("" ++ c) rest) := by
  rw [chunkEvents, chunkEventsGo_all_empty emp hemp]
  simp [chunkEventsGo, hc]

/-- C8.  The polling timer goes from running to stopped exactly once per
send: at the first non-empty delta when one arrives (after which it
never runs again — the settlement `clearInterval` is then a no-op), and
at settlement when no delta ever arrives (the timer still running right
up to the finally block). -/
theorem C8_timer_single_stop (chunks : List String) (ok : Bool) :
    stopsCount (sendMessageTrace chunks ok) = 1 ∧
      runningAfter (sendMessageTrace chunks ok) = false ∧
      ((∀ x ∈ chunks, x = "") →
        sendMessageTrace chunks ok
            = [ChatEvent.appendOptimistic, ChatEvent.startTimer] ++
                chunks.map ChatEvent.callbackChunk ++ errEvents ok ++
                finallyEvents ∧
          runningAfter
              ([ChatEvent.appendOptimistic, ChatEvent.startTimer] ++
                chunks.map ChatEvent.callbackChunk ++ errEvents ok)
            = true) ∧
      (∀ emp c rest, chunks = emp ++ c :: rest → (∀ x ∈ emp, x = "") →
        c ≠ "" →
        ∃ tail,
          sendMessageTrace chunks ok
              = [ChatEvent.appendOptimistic, ChatEvent.startTimer] ++
                  emp.map ChatEvent.callbackChunk ++
                  [ChatEvent.callbackChunk c, ChatEvent.clearTimer] ++ tail ∧
            ChatEvent.startTimer ∉ tail ∧
            runningAfter
                ([ChatEvent.appendOptimistic, ChatEvent.startTimer] ++
                  emp.map ChatEvent.callbackChunk ++
                  [ChatEvent.callbackChunk c])
              = true) := by
  refine ⟨?_, ?_, ?_, ?_⟩
  · rcases chunks_dichotomy chunks with hall | ⟨emp, c, rest, heq, hemp, hc⟩
    · rw [stopsCount, sendMessageTrace, chunkEvents_all_empty chunks hall]
      simp [stopsGo, timerStep, stopsGo_append, List.foldl_append,
        stops_map_cb, timerState_map_cb, stops_err, timerState_err,
        stops_finally_true]
    · rw [stopsCount, sendMessageTrace, heq,
        chunkEvents_first_delta emp c rest hemp hc]
      simp [stopsGo_append, List.foldl_append, stops_opening,
        timerState_opening, stops_map_cb, timerState_map_cb, stops_err,
        timerState_err, stops_finally_false, stopsGo, timerStep,
        stops_chunkTrue, timerState_chunkTrue]
  · simp [runningAfter, sendMessageTrace, List.foldl_append,
      timerState_finally]
  · intro hall
    constructor
    · rw [sendMessageTrace, chunkEvents_all_empty chunks hall]
    · simp [runningAfter, List.foldl_append, timerState_map_cb,
        timerState_err, timerStep]
  · intro emp c rest heq hemp hc
    refine ⟨ChatEvent.historySet ("" ++ c) ::
        (chunkEventsGo true ("" ++ c) rest ++ errEvents ok ++ finallyEvents),
      ?_, ?_, ?_⟩
    · rw [sendMessageTrace, heq, chunkEvents_first_delta emp c rest hemp hc]
      simp [List.append_assoc]
    · intro hmem
      simp only [List.mem_cons, List.mem_append] at hmem
      rcases hmem with h | h
      · exact absurd h (by simp)
      rcases h with h | h
      rcases h with h | h
      · rcases mem_chunkEventsGo rest true ("" ++ c) ChatEvent.startTimer h
          with ⟨c2, hcc⟩ | hcc | ⟨t, ht⟩ <;> simp_all
      · cases ok <;> simp [errEvents] at h
      · simp [finallyEvents] at h
    · simp [runningAfter, List.foldl_append, timerState_opening,
        timerState_map_cb, timerStep]

/-- C8, witness at a concrete input: one empty then one real delta, on a
failing send. -/
theorem C8_timer_single_stop_witness :
    ∃ tail,
      sendMessageTrace ["", "Hi"] false
          = [ChatEvent.appendOptimistic, ChatEvent.startTimer] ++
              [""].map ChatEvent.callbackChunk ++
              [ChatEvent.callbackChunk "Hi", ChatEvent.clearTimer] ++ tail ∧
        ChatEvent.startTimer ∉ tail ∧
        runningAfter
            ([ChatEvent.appendOptimistic, ChatEvent.startTimer] ++
              [""].map ChatEvent.callbackChunk ++
              [ChatEvent.callbackChunk "Hi"])
          = true :=
  (C8_timer_single_stop ["", "Hi"] false).2.2.2 [""] "Hi" []
    (by decide) (by decide) (by decide)

/-- Helper: one-step unfolding of applyEvents. -/
theorem applyEvents_cons (st : MState) (e : MEvent) (es : List MEvent) :
    applyEvents st (e :: es) = applyEvents (applyEvent st e) es := rfl

/-- Helper: applyEvents over a concatenation. -/
theorem applyEvents_append (st : MState) (l1 l2 : List MEvent) :
    applyEvents st (l1 ++ l2) = applyEvents (applyEvents st l1) l2 :=
  List.foldl_append _ _ _ _

/-- Helper: applyEvents over an empty list. -/
theorem applyEvents_nil (st : MState) : applyEvents st [] = st := rfl

/-- Helper: a start that finds `fetchPromise` set only joins it. -/
theorem start_joins (st : MState) (p : Nat) (t : Nat)
    (h : st.fetchPromise = some p) :
    applyEvent st (MEvent.start t)
      = { st with callers := st.callers ++ [CallerSt.joined p] } := by
  simp [applyEvent, h]

/-- Helper: the very first getSessionList call on a cold store starts
the one fetch (promise id 0) and joins it. -/
theorem first_start_cold (storage : Option (List Session)) (t0 : Nat) :
    applyEvent (coldInit storage) (MEvent.start t0)
      = { store := (coldInit storage).store, fetchPromise := some 0,
          nextP := 1, outstanding := [0], resolvedVal := fun _ => none,
          callers := [CallerSt.joined 0], fetchesStarted := 1 } := by
  simp [applyEvent, coldInit]

/-- Helper: while `fetchPromise` is set to promise 0, every further
start only joins that promise. -/
theorem starts_join (times : List Nat) :
    ∀ (st : MState), st.fetchPromise = some 0 →
      applyEvents st (times.map MEvent.start)
        = { st with callers := st.callers ++
              List.replicate times.length (CallerSt.joined 0) } := by
  induction times with
  | nil => intro st h; simp [applyEvents_nil]
  | cons t ts ih =>
    intro st h
    rw [List.map_cons, applyEvents_cons, start_joins st 0 t h,
      ih _ (by simp [h])]
    simp [List.replicate_succ, List.append_assoc]

/-- Helper: the invariant holds in the cold initial state. -/
theorem listInv_init (storage : Option (List Session)) :
    ListInv (coldInit storage) := by
  refine ⟨?_, ?_, ?_⟩ <;> simp [coldInit]

/-- Helper: every event preserves the invariant. -/
theorem listInv_step (st : MState) (e : MEvent) (hinv : ListInv st) :
    ListInv (applyEvent st e) := by
  obtain ⟨h1, h2, h3⟩ := hinv
  cases e with
  | start now =>
    cases hfp : st.fetchPromise with
    | some p =>
      rw [start_joins st p now hfp]
      exact ⟨h1, h2, h3⟩
    | none =>
      have hempty : st.outstanding = [] := by
        by_contra hne
        rcases List.exists_mem_of_ne_nil _ hne with ⟨p, hp⟩
        have := (h1 p hp).1
        rw [hfp] at this
        exact Option.noConfusion this
      by_cases hcache : 0 < st.store.sessionList.length ∧
          now - st.store.lastFetchTime < cacheTimeout
      · rw [show applyEvent st (MEvent.start now)
            = { st with callers :=
                st.callers ++ [CallerSt.done st.store.sessionList] } from by
          simp [applyEvent, hfp, hcache]]
        exact ⟨h1, h2, h3⟩
      · have heq : applyEvent st (MEvent.start now)
            = { st with
                fetchPromise := some st.nextP
                nextP := st.nextP + 1
                outstanding := st.outstanding ++ [st.nextP]
                fetchesStarted := st.fetchesStarted + 1
                callers := st.callers ++ [CallerSt.joined st.nextP] } := by
          simp [applyEvent, hfp, hcache]
        rw [heq]
        have hresnone : st.resolvedVal st.nextP = none := by
          cases hnone : st.resolvedVal st.nextP with
          | none => rfl
          | some v =>
            exact absurd (h2 st.nextP (by simp [hnone])) (Nat.lt_irrefl _)
        refine ⟨?_, ?_, ?_⟩
        · intro q hq
          simp [hempty] at hq
          subst hq
          exact ⟨rfl, hresnone, Nat.lt_succ_self _⟩
        · intro q hq
          exact Nat.lt_succ_of_lt (h2 q hq)
        · simp [hempty]
  | settle remote now =>
    cases hout : st.outstanding with
    | nil =>
      rw [show applyEvent st (MEvent.settle remote now) = st from by
        simp [applyEvent, hout]]
      exact ⟨h1, h2, h3⟩
    | cons p tl =>
      have htl : tl = [] := by
        rw [hout] at h3
        simpa using h3
      subst htl
      have hple : p < st.nextP := (h1 p (by rw [hout]; simp)).2.2
      have heq : applyEvent st (MEvent.settle remote now)
          = { st with
              store := (fetchSessionListFromBackend remote now st.store).2,
              outstanding := [],
              resolvedVal := fun q => if q = p then
                some (fetchSessionListFromBackend remote now st.store).1
                else st.resolvedVal q } := by
        simp [applyEvent, hout]
      rw [heq]
      refine ⟨?_, ?_, ?_⟩
      · intro q hq
        simp at hq
      · intro q hq
        simp at hq
        by_cases hqp : q = p
        · exact hqp ▸ hple
        · rw [if_neg hqp] at hq
          exact h2 q hq
      · simp
  | clearPromise =>
    cases hfp : st.fetchPromise with
    | none =>
      rw [show applyEvent st MEvent.clearPromise = st from by
        simp [applyEvent, hfp]]
      exact ⟨h1, h2, h3⟩
    | some p =>
      by_cases hres : (st.resolvedVal p).isSome
      · have hempty : st.outstanding = [] := by
          by_contra hne
          rcases List.exists_mem_of_ne_nil _ hne with ⟨q, hq⟩
          obtain ⟨ha, hb, _⟩ := h1 q hq
          rw [hfp] at ha
          have hqp : q = p := Option.some_inj.mp ha.symm
          rw [hqp] at hb
          rw [hb] at hres
          simp at hres
        rw [show applyEvent st MEvent.clearPromise
            = { st with fetchPromise := none } from by
          simp [applyEvent, hfp, hres]]
        refine ⟨?_, h2, h3⟩
        intro q hq
        rw [show ({ st with fetchPromise := none } : MState).outstanding
            = st.outstanding from rfl, hempty] at hq
        simp at hq
      · rw [show applyEvent st MEvent.clearPromise = st from by
          simp [applyEvent, hfp, hres]]
        exact ⟨h1, h2, h3⟩

/-- Helper: the invariant holds along every event sequence. -/
theorem listInv_fold (events : List MEvent) :
    ∀ (st : MState), ListInv st → ListInv (applyEvents st events) := by
  induction events with
  | nil => intro st h; exact h
  | cons e es ih =>
    intro st h
    rw [applyEvents_cons]
    exact ih _ (listInv_step st e h)

/-- C2.  From a cold store, any number of getSessionList calls that all
start before the fetch settles produce exactly one underlying
`fetchSessionListFromBackend` run (promise 0, the only outstanding
fetch), every caller joins that same promise, and once it settles every
caller observes the same resolved value; moreover along every event
sequence at most one list fetch is ever outstanding. -/
theorem C2_single_flight :
    (∀ (storage : Option (List Session)) (times : List Nat),
      2 ≤ times.length →
      (applyEvents (coldInit storage) (times.map MEvent.start)).fetchesStarted
          = 1 ∧
        (applyEvents (coldInit storage) (times.map MEvent.start)).outstanding
          = [0] ∧
        (∀ cst ∈ (applyEvents (coldInit storage)
            (times.map MEvent.start)).callers, cst = CallerSt.joined 0) ∧
        (∀ (remote : Except Unit (List Session)) (tn : Nat), ∃ v,
          ∀ cst ∈ (applyEvents (coldInit storage)
              (times.map MEvent.start ++ [MEvent.settle remote tn])).callers,
            callerValue (applyEvents (coldInit storage)
              (times.map MEvent.start ++ [MEvent.settle remote tn])) cst
              = some v)) ∧
    (∀ (storage : Option (List Session)) (events : List MEvent),
      (applyEvents (coldInit storage) events).outstanding.length ≤ 1) := by
  constructor
  · intro storage times htwo
    rcases times with _ | ⟨t0, ts⟩
    · simp at htwo
    have hsteps : applyEvents (coldInit storage)
        ((t0 :: ts).map MEvent.start)
        = { store := (coldInit storage).store, fetchPromise := some 0,
            nextP := 1, outstanding := [0], resolvedVal := fun _ => none,
            callers := CallerSt.joined 0 ::
              List.replicate ts.length (CallerSt.joined 0),
            fetchesStarted := 1 } := by
      rw [List.map_cons, applyEvents_cons, first_start_cold storage t0,
        starts_join ts _ rfl]
      simp
    refine ⟨by rw [hsteps], by rw [hsteps], ?_, ?_⟩
    · intro cst hcst
      rw [hsteps] at hcst
      simp at hcst
      rcases hcst with h | h
      · exact h
      · exact h.2
    · intro remote tn
      refine ⟨(fetchSessionListFromBackend remote tn
        (coldInit storage).store).1, ?_⟩
      intro cst hcst
      rw [applyEvents_append, hsteps] at hcst ⊢
      rw [show applyEvents
          { store := (coldInit storage).store, fetchPromise := some 0,
            nextP := 1, outstanding := [0], resolvedVal := fun _ => none,
            callers := CallerSt.joined 0 ::
              List.replicate ts.length (CallerSt.joined 0),
            fetchesStarted := 1 } [MEvent.settle remote tn]
          = applyEvent
          { store := (coldInit storage).store, fetchPromise := some 0,
            nextP := 1, outstanding := [0], resolvedVal := fun _ => none,
            callers := CallerSt.joined 0 ::
              List.replicate ts.length (CallerSt.joined 0),
            fetchesStarted := 1 } (MEvent.settle remote tn) from rfl]
        at hcst ⊢
      simp [applyEvent] at hcst ⊢
      rcases hcst with h | h
      · subst h; simp [callerValue]
      · rw [h.2]
        simp [callerValue]
  · intro storage events
    exact (listInv_fold events (coldInit storage) (listInv_init storage)).2.2

/-- C2, witness at a concrete input: two concurrent calls, then the
settlement of the single fetch. -/
theorem C2_single_flight_witness :
    (applyEvents (coldInit (some [sessionA]))
        ([3, 4].map MEvent.start)).fetchesStarted = 1 ∧
      (applyEvents (coldInit (some [sessionA]))
        ([3, 4].map MEvent.start)).outstanding = [0] ∧
      (∀ cst ∈ (applyEvents (coldInit (some [sessionA]))
          ([3, 4].map MEvent.start)).callers, cst = CallerSt.joined 0) ∧
      (∀ (remote : Except Unit (List Session)) (tn : Nat), ∃ v,
        ∀ cst ∈ (applyEvents (coldInit (some [sessionA]))
            ([3, 4].map MEvent.start ++ [MEvent.settle remote tn])).callers,
          callerValue (applyEvents (coldInit (some [sessionA]))
            ([3, 4].map MEvent.start ++ [MEvent.settle remote tn])) cst
            = some v) :=
  (C2_single_flight.1 (some [sessionA]) [3, 4] (by decide))

/-- C7, amended, witness at a concrete input. -/
theorem C7_write_through_witness :
    ((createSession sessionA 1000 storeA).2.storage
        = some (createSession sessionA 1000 storeA).2.sessionList ∧
      (createSession sessionA 1000 storeA).2.lastFetchTime = 1000) ∧
    ((removeSession sessionA true 1000 storeA).2.storage
        = some (removeSession sessionA true 1000 storeA).2.sessionList ∧
      (removeSession sessionA true 1000 storeA).2.lastFetchTime = 1000) ∧
    ((updateSession patchA storeA).2.lastFetchTime = storeA.lastFetchTime ∧
      ((∃ x ∈ storeA.sessionList, x.id = patchA.id) →
        (updateSession patchA storeA).2.storage
          = some (updateSession patchA storeA).2.sessionList) ∧
      ((¬ ∃ x ∈ storeA.sessionList, x.id = patchA.id) →
        (updateSession patchA storeA).2 = storeA)) :=
  C7_write_through sessionA sessionA patchA 1000 storeA true (by decide)

end Copaw
